import Mathlib

/-!
# Live preview service (`livePreview.c`): shallow embedding and verified properties

Buffers are modelled as byte-valued functions on offsets from the buffer's base pointer;
the allocation sizes used by `main` bound every load and store of the colour converter.
`int` arithmetic is carried out on `Int` with an explicit 32-bit wrap, `x >> k` on a signed
`int` is the arithmetic shift, and stores through `int *` / `short *` are little-endian.
-/

namespace LivePreview

/-! ## Configuration constants -/

def WIDTH : Nat := 320

def HEIGHT : Nat := 240

def BYTES_PER_PIXEL : Nat := 2

def FRAME_SIZE : Nat := WIDTH * HEIGHT * BYTES_PER_PIXEL

/-- Size of `rgb_buf` as allocated in `main`: `malloc(WIDTH * HEIGHT * 3)`. -/
def RGB_SIZE : Nat := WIDTH * HEIGHT * 3

/-! ## Machine-level helpers -/

/-- An `unsigned char`. -/
abbrev Byte := Fin 256

/-- A byte buffer addressed by offset from its base pointer. -/
abbrev Buffer := Nat → Byte

/-- Reduction of a mathematical integer to the value a 32-bit `int` holds. -/
def wrap32 (x : Int) : Int := (x + 2147483648) % 4294967296 - 2147483648

/-- Arithmetic right shift of a signed `int` (`x >> k`), rounding towards minus infinity. -/
def asr (x : Int) (k : Nat) : Int := x >>> k

/-- The macro `CLAMP(x)`: `((x) < 0 ? 0 : ((x) > 255 ? 255 : (x)))`. -/
def CLAMP (x : Int) : Int := if x < 0 then 0 else (if x > 255 then 255 else x)

/-- The conversion `(unsigned char) x`: reduction modulo 256. -/
def toUChar (x : Int) : Byte := ⟨(x % 256).toNat, by omega⟩

/-- Single byte store `m[i] = b`. -/
def store_byte (m : Buffer) (i : Nat) (b : Byte) : Buffer :=
  fun k => if k = i then b else m k

/-- Consecutive byte stores `m[j] = l0; m[j+1] = l1; ...`, in that order. -/
def store_list (m : Buffer) (j : Nat) : List Byte → Buffer
  | [] => m
  | b :: bs => store_list (store_byte m j b) (j + 1) bs

/-- The `len` bytes of `m` starting at offset `off`. -/
def slice (m : Buffer) (off len : Nat) : List Byte :=
  (List.range len).map (fun c => m (off + c))

/-- The call `memset(m, 0, n)`. -/
def memset_zero (m : Buffer) (n : Nat) : Buffer := fun k => if k < n then 0 else m k

/-- The store `*((int *)(m + off)) = v` on a little-endian machine with 32-bit `int`. -/
def store_int (m : Buffer) (off : Nat) (v : Int) : Buffer :=
  let w := v % 4294967296
  store_byte (store_byte (store_byte (store_byte m off (toUChar w)) (off + 1) (toUChar (w / 256)))
    (off + 2) (toUChar (w / 65536))) (off + 3) (toUChar (w / 16777216))

/-- The store `*((short *)(m + off)) = v` on a little-endian machine with 16-bit `short`. -/
def store_short (m : Buffer) (off : Nat) (v : Int) : Buffer :=
  let w := v % 65536
  store_byte (store_byte m off (toUChar w)) (off + 1) (toUChar (w / 256))

/-- Little-endian signed 32-bit load `*((int *)(m + off))`. -/
def load_int (m : Buffer) (off : Nat) : Int :=
  wrap32 ((m off).val + 256 * (m (off + 1)).val + 65536 * (m (off + 2)).val
    + 16777216 * (m (off + 3)).val)

/-- Little-endian signed 16-bit load `*((short *)(m + off))`. -/
def load_short (m : Buffer) (off : Nat) : Int :=
  ((m off).val + 256 * (m (off + 1)).val + 32768) % 65536 - 32768

/-! ## `create_bmp_header` and the file written each cycle -/

/-- The function `create_bmp_header(header)`. -/
def create_bmp_header (header : Buffer) : Buffer :=
  let image_size : Int := wrap32 (WIDTH * HEIGHT * 3)
  let file_size : Int := wrap32 (54 + image_size)
  let ppm : Int := 2835
  let header := memset_zero header 54
  let header := store_byte header 0 (toUChar (Char.toNat 'B'))
  let header := store_byte header 1 (toUChar (Char.toNat 'M'))
  let header := store_int header 2 file_size
  let header := store_int header 10 54
  let header := store_int header 14 40
  let header := store_int header 18 WIDTH
  let header := store_int header 22 (-(HEIGHT : Int))
  let header := store_short header 26 1
  let header := store_short header 28 24
  let header := store_int header 30 0
  let header := store_int header 34 image_size
  let header := store_int header 38 ppm
  let header := store_int header 42 ppm
  header

/-- The call `fwrite(buf, 1, count, f)` when it completes: the bytes appended to the file. -/
def fwrite (buf : Buffer) (count : Nat) : List Byte := slice buf 0 count

/-- Contents of `OUT_FILE` after `fwrite(bmp_header, 1, 54, f)` followed by
`fwrite(rgb_buf, 1, WIDTH * HEIGHT * 3, f)` on the freshly truncated file. -/
def bmp_file (bmp_header rgb_buf : Buffer) : List Byte :=
  fwrite bmp_header 54 ++ fwrite rgb_buf (WIDTH * HEIGHT * 3)

/-- The 54 header bytes listed field by field: signature, file size, reserved, data offset,
header size, width, height, planes, bit count, compression, image size, two resolution
fields, colour counts. -/
def bmp_header_bytes : List Byte :=
  [66, 77,
   54, 132, 3, 0,
   0, 0, 0, 0,
   54, 0, 0, 0,
   40, 0, 0, 0,
   64, 1, 0, 0,
   16, 255, 255, 255,
   1, 0,
   24, 0,
   0, 0, 0, 0,
   0, 132, 3, 0,
   19, 11, 0, 0,
   19, 11, 0, 0,
   0, 0, 0, 0, 0, 0, 0, 0]

/-! ## `yvyu_to_rgb_int_math` -/

/-- The six `int` locals computed for one 4-byte group. -/
structure GroupInts where
  py_r0 : Int
  py_g0 : Int
  py_b0 : Int
  py_r1 : Int
  py_g1 : Int
  py_b1 : Int
deriving DecidableEq

/-- Steps 1 to 4 of the loop body, for the group bytes `raw[i], raw[i+1], raw[i+2], raw[i+3]`
given in that order. -/
def group_ints (b0 b1 b2 b3 : Byte) : GroupInts :=
  let y0 : Int := b0.val
  let u : Int := b1.val
  let y1 : Int := b2.val
  let v : Int := b3.val
  let u_signed := wrap32 (u - 128)
  let v_signed := wrap32 (v - 128)
  let py_g0 := wrap32 (y0 + asr (wrap32 (1436 * v_signed)) 10)
  let py_b0 :=
    wrap32 (wrap32 (y0 - asr (wrap32 (352 * u_signed)) 10) - asr (wrap32 (731 * v_signed)) 10)
  let py_r0 := wrap32 (y0 + asr (wrap32 (1815 * u_signed)) 10)
  let py_g1 := wrap32 (y1 + asr (wrap32 (1436 * v_signed)) 10)
  let py_b1 :=
    wrap32 (wrap32 (y1 - asr (wrap32 (352 * u_signed)) 10) - asr (wrap32 (731 * v_signed)) 10)
  let py_r1 := wrap32 (y1 + asr (wrap32 (1815 * u_signed)) 10)
  { py_r0 := py_r0, py_g0 := py_g0, py_b0 := py_b0,
    py_r1 := py_r1, py_g1 := py_g1, py_b1 := py_b1 }

/-- The six integers handed to `CLAMP` in step 5, in the order in which they are written. -/
def group_preclamp (b0 b1 b2 b3 : Byte) : List Int :=
  let g := group_ints b0 b1 b2 b3
  [g.py_b0, g.py_g0, g.py_r0, g.py_b1, g.py_g1, g.py_r1]

/-- Step 5 of the loop body: the six bytes stored at `rgb_out[j], ..., rgb_out[j+5]`,
in that order. -/
def group_bytes (b0 b1 b2 b3 : Byte) : List Byte :=
  let g := group_ints b0 b1 b2 b3
  [toUChar (CLAMP g.py_b0), toUChar (CLAMP g.py_g0), toUChar (CLAMP g.py_r0),
   toUChar (CLAMP g.py_b1), toUChar (CLAMP g.py_g1), toUChar (CLAMP g.py_r1)]

/-- State of the conversion: the output buffer together with the offsets loaded from `raw`
and stored to `rgb_out` so far, in program order. -/
structure ConvState where
  rgb_out : Buffer
  reads : List Nat
  writes : List Nat

/-- One iteration of the loop at indices `i`, `j`. An access outside the `FRAME_SIZE` input
bytes or the `RGB_SIZE` output bytes is undefined and yields `none`. -/
def conv_body (raw : Buffer) (i j : Nat) (st : ConvState) : Option ConvState :=
  if i + 3 < FRAME_SIZE ∧ j + 5 < RGB_SIZE then
    some
      { rgb_out :=
          store_list st.rgb_out j (group_bytes (raw i) (raw (i + 1)) (raw (i + 2)) (raw (i + 3))),
        reads := st.reads ++ [i, i + 1, i + 2, i + 3],
        writes := st.writes ++ [j, j + 1, j + 2, j + 3, j + 4, j + 5] }
  else none

/-- The loop `for (i = 0, j = 0; i < FRAME_SIZE; i += 4, j += 6)`. -/
def conv_loop (raw : Buffer) : Nat → Nat → Nat → ConvState → Option ConvState
  | 0, _, _, _ => none
  | fuel + 1, i, j, st =>
    if i < FRAME_SIZE then
      (conv_body raw i j st).bind (conv_loop raw fuel (i + 4) (j + 6))
    else some st

/-- The function `yvyu_to_rgb_int_math(raw, rgb_out)`. The iteration bound `FRAME_SIZE / 4 + 1`
is never exhausted, since `i` grows by 4 per iteration. -/
def yvyu_to_rgb_int_math (raw rgb_out : Buffer) : Option ConvState :=
  conv_loop raw (FRAME_SIZE / 4 + 1) 0 0 { rgb_out := rgb_out, reads := [], writes := [] }

/-- Loop invariant of the conversion after `n` iterations, started on output buffer `out0`. -/
def ConvInv (raw : Buffer) (out0 : Buffer) (n : Nat) (st : ConvState) : Prop :=
  (∀ k, k < n → slice st.rgb_out (6 * k) 6
      = group_bytes (raw (4 * k)) (raw (4 * k + 1)) (raw (4 * k + 2)) (raw (4 * k + 3))) ∧
  (∀ m, 6 * n ≤ m → st.rgb_out m = out0 m) ∧
  st.reads = List.range (4 * n) ∧
  st.writes = List.range (6 * n)

/-! ### The conversion formulas as the specification words them -/

/-- Red channel of the fixed-point conversion, `y + ((1436 * v') >> 10)`. -/
def red_formula (y v' : Int) : Int := y + asr (1436 * v') 10

/-- Green channel, `y - ((352 * u') >> 10) - ((731 * v') >> 10)`. -/
def green_formula (y u' v' : Int) : Int := y - asr (352 * u') 10 - asr (731 * v') 10

/-- Blue channel, `y + ((1815 * u') >> 10)`. -/
def blue_formula (y u' : Int) : Int := y + asr (1815 * u') 10

/-- Saturation of an integer to `[0, 255]`, as a byte. -/
def clampByte (x : Int) : Byte :=
  if h : 0 ≤ x ∧ x ≤ 255 then ⟨x.toNat, by omega⟩ else if x < 0 then 0 else 255

/-- Saturation of an integer to `[0, 255]`, as an integer. -/
def saturate (x : Int) : Int := if x < 0 then 0 else if x > 255 then 255 else x

/-- The six output bytes of a group as the specification describes them: the group is
`(y0, chromaV, y1, chromaU)` in wire order, `u' = chromaU - 128`, `v' = chromaV - 128`, and
each pixel is written as clamped green, red, blue. -/
def spec_group_bytes (y0 chromaV y1 chromaU : Byte) : List Byte :=
  let u' : Int := (chromaU.val : Int) - 128
  let v' : Int := (chromaV.val : Int) - 128
  [clampByte (green_formula y0.val u' v'), clampByte (red_formula y0.val v'),
   clampByte (blue_formula y0.val u'),
   clampByte (green_formula y1.val u' v'), clampByte (red_formula y1.val v'),
   clampByte (blue_formula y1.val u')]

/-- The six output bytes of a group if each pixel were written blue, green, red, with `u'`
and `v'` the centred values the function itself uses (`u_signed` from the second group byte,
`v_signed` from the fourth). -/
def bgr_group_bytes (b0 b1 b2 b3 : Byte) : List Byte :=
  let u' : Int := (b1.val : Int) - 128
  let v' : Int := (b3.val : Int) - 128
  [clampByte (blue_formula b0.val u'), clampByte (green_formula b0.val u' v'),
   clampByte (red_formula b0.val v'),
   clampByte (blue_formula b2.val u'), clampByte (green_formula b2.val u' v'),
   clampByte (red_formula b2.val v')]

/-- The six pre-clamp values of a group computed in unbounded integer arithmetic. -/
def exact_preclamp (b0 b1 b2 b3 : Byte) : List Int :=
  let u' : Int := (b1.val : Int) - 128
  let v' : Int := (b3.val : Int) - 128
  [green_formula b0.val u' v', red_formula b0.val v', blue_formula b0.val u',
   green_formula b2.val u' v', red_formula b2.val v', blue_formula b2.val u']

/-- The three bytes written for one pixel, as a function of its luma byte and of the second and
fourth bytes of its group. -/
def pixel_bytes (y b1 b3 : Byte) : List Byte := (group_bytes y b1 y b3).take 3

/-- The frame buffer of `FRAME_SIZE` zero bytes. -/
def zero_frame : Buffer := fun _ => 0

/-! ## `read_exact` -/

/-- Outcome of `read_exact`: the value returned and the number of bytes stored into `buf`. -/
structure ReadResult where
  ret : Int
  total : Int
deriving DecidableEq

/-- The loop of `read_exact`. The value `rd k` is what the `k`-th call
`read(fd, buf + total, len - total)` returns; `fuel` bounds the number of iterations. -/
def read_exact_loop (rd : Nat → Int) (len : Int) : Nat → Nat → Int → Int → Option ReadResult
  | 0, _, _, _ => none
  | fuel + 1, k, total, retries =>
    if total < len then
      let n := rd k
      if n > 0 then
        read_exact_loop rd len fuel (k + 1) (wrap32 (total + n)) 0
      else
        let retries := wrap32 (retries + 1)
        if retries > 500 then some { ret := -1, total := total }
        else read_exact_loop rd len fuel (k + 1) total retries
    else some { ret := total, total := total }

/-- The function `read_exact(fd, buf, len)` run against the read results `rd`. -/
def read_exact (rd : Nat → Int) (len : Int) (fuel : Nat) : Option ReadResult :=
  read_exact_loop rd len fuel 0 0 0

/-- Accumulated byte count after the first `k` read results. -/
def acc (rd : Nat → Int) : Nat → Int
  | 0 => 0
  | k + 1 => acc rd k + (if rd k > 0 then rd k else 0)

/-- The read results `m - 501, ..., m - 1` are 501 consecutive non-positive results. -/
def TimeoutAt (rd : Nat → Int) (m : Nat) : Prop :=
  501 ≤ m ∧ ∀ j, m - 501 ≤ j → j < m → rd j ≤ 0

/-- The accumulated count reaches `len` before any run of 501 consecutive non-positive
results has occurred. -/
def CompletesBeforeTimeout (rd : Nat → Int) (len : Int) : Prop :=
  ∃ k, len ≤ acc rd k ∧ ∀ m, m ≤ k → ¬ TimeoutAt rd m

/-- While the transfer is in progress every positive read result is at most the number of
bytes still requested. -/
def ReadsWithinRequest (rd : Nat → Int) (len : Int) : Prop :=
  ∀ k, acc rd k < len → (∀ m, m ≤ k → ¬ TimeoutAt rd m) → 0 < rd k → rd k ≤ len - acc rd k

/-- Read results of a link that delivers two bytes and then nothing more. -/
def two_then_silent : Nat → Int := fun k => if k = 0 then 2 else 0

/-! ## The streaming loop of `main` -/

/-- Observable actions of one streaming session. -/
inductive Event
  | read_frame
  | printf_frame_error (n : Int)
  | gettimeofday
  | check_live_status
  | write_serial (token : String)
  | tcdrain
  | printf_stop_requested
  | usleep (us : Nat)
  | convert
  | fopen_out
  | fwrite_header
  | fwrite_pixels
  | fclose_out
  | printf_success
  | close_serial
  | printf_session_ended
deriving DecidableEq

/-- What one pass through the streaming loop observes: the value `n` returned by
`read_exact(serial_fd, raw_buf, FRAME_SIZE)`, the value of `check_live_status(db)` (consulted
only after a full frame) and whether `fopen(OUT_FILE, "wb")` succeeds (consulted only when the
frame is processed). -/
structure CycleObs where
  n : Int
  live : Int
  fopen_ok : Bool
deriving DecidableEq

/-- The statements following the streaming loop: `close(serial_fd)` and the idle message. -/
def after_loop : List Event := [Event.close_serial, Event.printf_session_ended]

/-- Part C of the loop body: conversion, the guarded file write, timing and statistics. -/
def process_and_save (o : CycleObs) : List Event :=
  [Event.convert, Event.fopen_out]
    ++ (if o.fopen_ok then [Event.fwrite_header, Event.fwrite_pixels, Event.fclose_out] else [])
    ++ [Event.gettimeofday, Event.printf_success]

/-- The streaming handshake loop of `main` followed by the statements after it, run against a
sequence of observations. When the observations are exhausted the loop is still running and
the trace produced so far is returned. -/
def streaming_loop : List CycleObs → List Event
  | [] => []
  | o :: rest =>
    Event.read_frame ::
      (if o.n ≠ (FRAME_SIZE : Int) then
        Event.printf_frame_error o.n :: after_loop
      else
        Event.gettimeofday :: Event.check_live_status ::
          (if o.live ≠ 0 then
            [Event.write_serial "A\n", Event.tcdrain] ++ process_and_save o ++ streaming_loop rest
          else
            [Event.printf_stop_requested, Event.write_serial "X\n", Event.tcdrain,
              Event.usleep 50000] ++ after_loop))

/-- Events that act on the transport, the pixel buffer or the output file. Clock readings,
the flag query, draining, waiting and diagnostic output are not among them. -/
def isEffect : Event → Bool
  | Event.write_serial _ => true
  | Event.convert => true
  | Event.fopen_out => true
  | Event.fwrite_header => true
  | Event.fwrite_pixels => true
  | Event.fclose_out => true
  | Event.close_serial => true
  | _ => false

/-- The effects of a trace, in order. -/
def effects (t : List Event) : List Event := t.filter isEffect

/-- Effects of a cycle that received a full frame while the flag is enabled: the continue
token, then the conversion, then the file write. -/
def continue_effects (o : CycleObs) : List Event :=
  [Event.write_serial "A\n", Event.convert, Event.fopen_out]
    ++ (if o.fopen_ok then [Event.fwrite_header, Event.fwrite_pixels, Event.fclose_out] else [])

/-- A cycle that receives a full frame with the flag enabled and a writable output file. -/
def live_cycle : CycleObs := { n := 153600, live := 1, fopen_ok := true }

/-- A cycle that receives a full frame and then sees the flag disabled. -/
def stop_cycle : CycleObs := { n := 153600, live := 0, fopen_ok := true }

/-! ## Arithmetic lemmas -/

theorem asr_ten (x : Int) : asr x 10 = x / 1024 := by
  unfold asr
  rw [Int.shiftRight_eq_div_pow]
  norm_num

theorem wrap32_id (x : Int) (h1 : -2147483648 ≤ x) (h2 : x < 2147483648) : wrap32 x = x := by
  unfold wrap32; omega

theorem toUChar_CLAMP (x : Int) : toUChar (CLAMP x) = clampByte x := by
  apply Fin.ext
  unfold toUChar CLAMP clampByte
  by_cases h1 : x < 0
  · have h : ¬ (0 ≤ x ∧ x ≤ 255) := by omega
    simp [h1, h]
  · by_cases h2 : x > 255
    · have h : ¬ (0 ≤ x ∧ x ≤ 255) := by omega
      simp [h1, h2, h]
      rfl
    · have h : 0 ≤ x ∧ x ≤ 255 := by omega
      simp only [h1, h2, if_false, h, and_self, dite_true]
      omega

theorem clampByte_val (x : Int) : ((clampByte x).val : Int) = saturate x := by
  unfold clampByte saturate
  by_cases h1 : x < 0
  · have h : ¬ (0 ≤ x ∧ x ≤ 255) := by omega
    simp [h1, h]
  · by_cases h2 : x > 255
    · have h : ¬ (0 ≤ x ∧ x ≤ 255) := by omega
      simp [h1, h2, h]
      rfl
    · have h : 0 ≤ x ∧ x ≤ 255 := by omega
      simp only [h1, h2, if_false, h, and_self, dite_true]
      omega

/-- The 32-bit computation of the loop body never overflows: its six results are the values
of the conversion formulas in unbounded integer arithmetic, with `u_signed` taken from the
second group byte and `v_signed` from the fourth. -/
theorem group_ints_eq (b0 b1 b2 b3 : Byte) :
    group_ints b0 b1 b2 b3 =
      { py_r0 := blue_formula b0.val ((b1.val : Int) - 128),
        py_g0 := red_formula b0.val ((b3.val : Int) - 128),
        py_b0 := green_formula b0.val ((b1.val : Int) - 128) ((b3.val : Int) - 128),
        py_r1 := blue_formula b2.val ((b1.val : Int) - 128),
        py_g1 := red_formula b2.val ((b3.val : Int) - 128),
        py_b1 := green_formula b2.val ((b1.val : Int) - 128) ((b3.val : Int) - 128) } := by
  have h0 := b0.isLt
  have h1 := b1.isLt
  have h2 := b2.isLt
  have h3 := b3.isLt
  have hu : wrap32 ((b1.val : Int) - 128) = (b1.val : Int) - 128 :=
    wrap32_id _ (by omega) (by omega)
  have hv : wrap32 ((b3.val : Int) - 128) = (b3.val : Int) - 128 :=
    wrap32_id _ (by omega) (by omega)
  have m1 : wrap32 (1436 * ((b3.val : Int) - 128)) = 1436 * ((b3.val : Int) - 128) :=
    wrap32_id _ (by omega) (by omega)
  have m2 : wrap32 (352 * ((b1.val : Int) - 128)) = 352 * ((b1.val : Int) - 128) :=
    wrap32_id _ (by omega) (by omega)
  have m3 : wrap32 (731 * ((b3.val : Int) - 128)) = 731 * ((b3.val : Int) - 128) :=
    wrap32_id _ (by omega) (by omega)
  have m4 : wrap32 (1815 * ((b1.val : Int) - 128)) = 1815 * ((b1.val : Int) - 128) :=
    wrap32_id _ (by omega) (by omega)
  simp only [group_ints, red_formula, green_formula, blue_formula, hu, hv, m1, m2, m3, m4,
    asr_ten]
  have a1 : wrap32 ((b0.val : Int) + 1436 * ((b3.val : Int) - 128) / 1024)
      = (b0.val : Int) + 1436 * ((b3.val : Int) - 128) / 1024 :=
    wrap32_id _ (by omega) (by omega)
  have a2 : wrap32 ((b2.val : Int) + 1436 * ((b3.val : Int) - 128) / 1024)
      = (b2.val : Int) + 1436 * ((b3.val : Int) - 128) / 1024 :=
    wrap32_id _ (by omega) (by omega)
  have a3 : wrap32 ((b0.val : Int) + 1815 * ((b1.val : Int) - 128) / 1024)
      = (b0.val : Int) + 1815 * ((b1.val : Int) - 128) / 1024 :=
    wrap32_id _ (by omega) (by omega)
  have a4 : wrap32 ((b2.val : Int) + 1815 * ((b1.val : Int) - 128) / 1024)
      = (b2.val : Int) + 1815 * ((b1.val : Int) - 128) / 1024 :=
    wrap32_id _ (by omega) (by omega)
  have a5 : wrap32 ((b0.val : Int) - 352 * ((b1.val : Int) - 128) / 1024)
      = (b0.val : Int) - 352 * ((b1.val : Int) - 128) / 1024 :=
    wrap32_id _ (by omega) (by omega)
  have a6 : wrap32 ((b2.val : Int) - 352 * ((b1.val : Int) - 128) / 1024)
      = (b2.val : Int) - 352 * ((b1.val : Int) - 128) / 1024 :=
    wrap32_id _ (by omega) (by omega)
  have a7 : wrap32 ((b0.val : Int) - 352 * ((b1.val : Int) - 128) / 1024
        - 731 * ((b3.val : Int) - 128) / 1024)
      = (b0.val : Int) - 352 * ((b1.val : Int) - 128) / 1024
        - 731 * ((b3.val : Int) - 128) / 1024 :=
    wrap32_id _ (by omega) (by omega)
  have a8 : wrap32 ((b2.val : Int) - 352 * ((b1.val : Int) - 128) / 1024
        - 731 * ((b3.val : Int) - 128) / 1024)
      = (b2.val : Int) - 352 * ((b1.val : Int) - 128) / 1024
        - 731 * ((b3.val : Int) - 128) / 1024 :=
    wrap32_id _ (by omega) (by omega)
  simp only [a1, a2, a3, a4, a5, a6, a7, a8]

/-- The six bytes of a group are the clamped green, red and blue formula values of each pixel,
in that order, with `u'` from the second group byte and `v'` from the fourth. -/
theorem group_bytes_eq (b0 b1 b2 b3 : Byte) :
    group_bytes b0 b1 b2 b3 =
      [clampByte (green_formula b0.val ((b1.val : Int) - 128) ((b3.val : Int) - 128)),
       clampByte (red_formula b0.val ((b3.val : Int) - 128)),
       clampByte (blue_formula b0.val ((b1.val : Int) - 128)),
       clampByte (green_formula b2.val ((b1.val : Int) - 128) ((b3.val : Int) - 128)),
       clampByte (red_formula b2.val ((b3.val : Int) - 128)),
       clampByte (blue_formula b2.val ((b1.val : Int) - 128))] := by
  simp only [group_bytes, group_ints_eq, toUChar_CLAMP]

theorem formula_bounds (y u v : Byte) :
    (-133 ≤ green_formula y.val ((u.val : Int) - 128) ((v.val : Int) - 128) ∧
      green_formula y.val ((u.val : Int) - 128) ((v.val : Int) - 128) ≤ 391) ∧
    (-180 ≤ red_formula y.val ((v.val : Int) - 128) ∧
      red_formula y.val ((v.val : Int) - 128) ≤ 433) ∧
    (-227 ≤ blue_formula y.val ((u.val : Int) - 128) ∧
      blue_formula y.val ((u.val : Int) - 128) ≤ 480) := by
  have h0 := y.isLt
  have h1 := u.isLt
  have h2 := v.isLt
  simp only [green_formula, red_formula, blue_formula, asr_ten]
  omega

theorem CLAMP_eq_saturate (x : Int) : CLAMP x = saturate x := rfl

theorem CLAMP_mod (x : Int) : CLAMP x % 256 = CLAMP x := by
  unfold CLAMP
  split_ifs <;> omega

/-! ## Buffer lemmas -/

theorem store_list_lt (l : List Byte) : ∀ (m : Buffer) (j i : Nat), i < j →
    store_list m j l i = m i := by
  induction l with
  | nil => intro m j i _; rfl
  | cons b bs ih =>
    intro m j i h
    rw [store_list, ih _ _ _ (by omega)]
    simp [store_byte]; omega

theorem store_list_ge (l : List Byte) : ∀ (m : Buffer) (j i : Nat), j + l.length ≤ i →
    store_list m j l i = m i := by
  induction l with
  | nil => intro m j i _; rfl
  | cons b bs ih =>
    intro m j i h
    simp only [List.length_cons] at h
    rw [store_list, ih _ _ _ (by omega)]
    simp [store_byte]; omega

theorem store_list_get (l : List Byte) : ∀ (m : Buffer) (j c : Nat) (h : c < l.length),
    store_list m j l (j + c) = l[c] := by
  induction l with
  | nil => intro m j c h; simp at h
  | cons b bs ih =>
    intro m j c h
    cases c with
    | zero =>
      rw [store_list, store_list_lt _ _ _ _ (by omega)]
      simp [store_byte]
    | succ c =>
      simp only [List.length_cons] at h
      rw [store_list]
      have := ih (store_byte m j b) (j + 1) c (by omega)
      rw [show j + (c + 1) = j + 1 + c by omega, this]
      simp

theorem slice_store_list (l : List Byte) (m : Buffer) (j : Nat) :
    slice (store_list m j l) j l.length = l := by
  apply List.ext_getElem
  · simp [slice]
  · intro c h1 h2
    simp only [slice, List.getElem_map, List.getElem_range]
    exact store_list_get l m j c h2

theorem slice_congr (m m' : Buffer) (off len : Nat)
    (h : ∀ c, c < len → m' (off + c) = m (off + c)) : slice m' off len = slice m off len := by
  unfold slice
  apply List.map_congr_left
  intro c hc
  exact h c (List.mem_range.mp hc)



theorem slice_get (m : Buffer) (off len c : Nat) (l : List Byte) (h : slice m off len = l)
    (hc : c < len) : m (off + c) = l.getD c 0 := by
  subst h
  simp [slice, List.getD, hc]

theorem slice_six_split (m : Buffer) (off : Nat) :
    slice m off 6 = slice m off 3 ++ slice m (off + 3) 3 := by
  simp [slice, List.range_succ, Nat.add_assoc]

/-! ## The conversion loop -/

theorem group_bytes_length (b0 b1 b2 b3 : Byte) : (group_bytes b0 b1 b2 b3).length = 6 := rfl

theorem range_add_four (a : Nat) :
    List.range (a + 4) = List.range a ++ [a, a + 1, a + 2, a + 3] := by
  simp [List.range_succ, ← Nat.add_assoc]

theorem range_add_six (a : Nat) :
    List.range (a + 6) = List.range a ++ [a, a + 1, a + 2, a + 3, a + 4, a + 5] := by
  simp [List.range_succ, ← Nat.add_assoc]

theorem conv_body_inv (raw out0 : Buffer) (n : Nat) (st : ConvState) (hn : n < 38400)
    (hinv : ConvInv raw out0 n st) :
    ∃ st', conv_body raw (4 * n) (6 * n) st = some st' ∧ ConvInv raw out0 (n + 1) st' := by
  obtain ⟨h1, h2, h3, h4⟩ := hinv
  have hb : 4 * n + 3 < FRAME_SIZE ∧ 6 * n + 5 < RGB_SIZE := by
    simp only [FRAME_SIZE, RGB_SIZE, WIDTH, HEIGHT, BYTES_PER_PIXEL]; omega
  refine ⟨_, by rw [conv_body, if_pos hb], ?_, ?_, ?_, ?_⟩
  · intro k hk
    rcases Nat.lt_succ_iff_lt_or_eq.mp hk with hlt | heq
    · rw [← h1 k hlt]
      apply slice_congr
      intro c hc
      exact store_list_lt _ _ _ _ (by omega)
    · subst heq
      exact slice_store_list (group_bytes (raw (4 * k)) (raw (4 * k + 1)) (raw (4 * k + 2))
        (raw (4 * k + 3))) st.rgb_out (6 * k)
  · intro m hm
    simp only []
    rw [store_list_ge _ _ _ _ (by rw [group_bytes_length]; omega)]
    exact h2 m (by omega)
  · simp only [h3]
    rw [show 4 * (n + 1) = 4 * n + 4 by ring, range_add_four]
  · simp only [h4]
    rw [show 6 * (n + 1) = 6 * n + 6 by ring, range_add_six]

theorem conv_loop_inv (raw out0 : Buffer) : ∀ (d n fuel : Nat) (st : ConvState),
    n + d = 38400 → d + 1 ≤ fuel → ConvInv raw out0 n st →
    ∃ st', conv_loop raw fuel (4 * n) (6 * n) st = some st' ∧ ConvInv raw out0 38400 st' := by
  intro d
  induction d with
  | zero =>
    intro n fuel st hn hf hinv
    obtain ⟨f, rfl⟩ : ∃ f, fuel = f + 1 := ⟨fuel - 1, by omega⟩
    have : ¬ 4 * n < FRAME_SIZE := by
      simp only [FRAME_SIZE, WIDTH, HEIGHT, BYTES_PER_PIXEL]; omega
    refine ⟨st, by rw [conv_loop, if_neg this], ?_⟩
    have h : n = 38400 := by omega
    rw [← h]; exact hinv
  | succ d ih =>
    intro n fuel st hn hf hinv
    obtain ⟨f, rfl⟩ : ∃ f, fuel = f + 1 := ⟨fuel - 1, by omega⟩
    have hlt : 4 * n < FRAME_SIZE := by
      simp only [FRAME_SIZE, WIDTH, HEIGHT, BYTES_PER_PIXEL]; omega
    obtain ⟨st1, hb, hinv1⟩ := conv_body_inv raw out0 n st (by omega) hinv
    obtain ⟨st2, hl, hinv2⟩ := ih (n + 1) f st1 (by omega) (by omega) hinv1
    refine ⟨st2, ?_, hinv2⟩
    rw [conv_loop, if_pos hlt, hb, Option.some_bind]
    rw [show 4 * n + 4 = 4 * (n + 1) by ring, show 6 * n + 6 = 6 * (n + 1) by ring]
    exact hl

theorem yvyu_frame (raw out0 : Buffer) :
    ∃ st, yvyu_to_rgb_int_math raw out0 = some st ∧ ConvInv raw out0 38400 st := by
  have h0 : ConvInv raw out0 0 { rgb_out := out0, reads := [], writes := [] } := by
    refine ⟨?_, ?_, ?_, ?_⟩
    · intro k hk; omega
    · intro m _; rfl
    · rfl
    · rfl
  have := conv_loop_inv raw out0 38400 0 (FRAME_SIZE / 4 + 1) _ (by omega)
    (by simp only [FRAME_SIZE, WIDTH, HEIGHT, BYTES_PER_PIXEL]; omega) h0
  simpa [yvyu_to_rgb_int_math] using this


/-! ## The read loop -/

theorem acc_nonneg (rd : Nat → Int) : ∀ k, 0 ≤ acc rd k := by
  intro k
  induction k with
  | zero => simp [acc]
  | succ k ih => rw [acc]; split_ifs <;> omega

theorem acc_mono (rd : Nat → Int) (a : Nat) : ∀ d, acc rd a ≤ acc rd (a + d) := by
  intro d
  induction d with
  | zero => simp
  | succ d ih => rw [← Nat.add_assoc, acc]; split_ifs <;> omega

theorem acc_le_of_le (rd : Nat → Int) {a b : Nat} (h : a ≤ b) : acc rd a ≤ acc rd b := by
  obtain ⟨d, rfl⟩ := Nat.exists_eq_add_of_le h
  exact acc_mono rd a d

theorem not_completes_of_timeout (rd : Nat → Int) (len : Int) (k : Nat)
    (ht : TimeoutAt rd k) (hlt : acc rd k < len) : ¬ CompletesBeforeTimeout rd len := by
  rintro ⟨k2, hk2, hno⟩
  by_cases h : k ≤ k2
  · exact hno k h ht
  · have := acc_le_of_le rd (show k2 ≤ k by omega)
    omega

theorem read_exact_loop_spec (rd : Nat → Int) (len : Int) (hmax : len < 2147483648)
    (hwf : ReadsWithinRequest rd len) :
    ∀ (fuel k r : Nat), acc rd k ≤ len → r ≤ 500 → r ≤ k →
      (∀ j, k - r ≤ j → j < k → rd j ≤ 0) → (r < k → 0 < rd (k - r - 1)) →
      (∀ m, m ≤ k → ¬ TimeoutAt rd m) →
      (len - acc rd k).toNat * 501 + (501 - r) + 1 ≤ fuel →
      ∃ res, read_exact_loop rd len fuel k (acc rd k) r = some res ∧
        ((res.ret = len ∧ res.total = len ∧ CompletesBeforeTimeout rd len) ∨
         (res.ret = -1 ∧ ∃ k', TimeoutAt rd k' ∧ (∀ m, m < k' → ¬ TimeoutAt rd m) ∧
            res.total = acc rd k' ∧ acc rd k' < len)) := by
  intro fuel
  induction fuel with
  | zero => intro k r _ _ _ _ _ _ hf; omega
  | succ fuel ih =>
    intro k r hle hr hrk hwin hmaxi hno hf
    have hnn := acc_nonneg rd k
    rw [read_exact_loop]
    by_cases hlt : acc rd k < len
    · rw [if_pos hlt]
      simp only []
      by_cases hpos : rd k > 0
      · rw [if_pos hpos]
        have hreq := hwf k hlt hno hpos
        have hacc : acc rd (k + 1) = acc rd k + rd k := by rw [acc, if_pos hpos]
        rw [wrap32_id _ (by omega) (by omega), ← hacc]
        have := ih (k + 1) 0 (by omega) (by omega) (by omega)
          (by intro j h1 h2; omega)
          (by intro _; simpa using hpos)
          (by
            intro m hm ht
            rcases Nat.lt_or_ge m (k + 1) with h | h
            · exact hno m (by omega) ht
            · have hm' : m = k + 1 := by omega
              subst hm'
              have := ht.2 k (by omega) (by omega)
              omega)
          (by omega)
        simpa using this
      · rw [if_neg hpos]
        have hacc : acc rd (k + 1) = acc rd k := by rw [acc, if_neg hpos]; simp
        rw [wrap32_id _ (by omega) (by omega)]
        by_cases hto : (r : Int) + 1 > 500
        · rw [if_pos hto]
          refine ⟨_, rfl, Or.inr ⟨rfl, k + 1, ⟨by omega, ?_⟩, ?_, ?_, ?_⟩⟩
          · intro j h1 h2
            rcases Nat.lt_or_ge j k with h | h
            · exact hwin j (by omega) h
            · have : j = k := by omega
              subst this; omega
          · intro m hm; exact hno m (by omega)
          · simp only [hacc]
          · omega
        · rw [if_neg hto]
          have := ih (k + 1) (r + 1) (by omega) (by omega) (by omega)
            (by
              intro j h1 h2
              rcases Nat.lt_or_ge j k with h | h
              · exact hwin j (by omega) h
              · have : j = k := by omega
                subst this; omega)
            (by
              intro h
              have := hmaxi (by omega)
              rw [show k + 1 - (r + 1) - 1 = k - r - 1 by omega]
              exact this)
            (by
              intro m hm ht
              rcases Nat.lt_or_ge m (k + 1) with h | h
              · exact hno m (by omega) ht
              · have hm' : m = k + 1 := by omega
                subst hm'
                rcases Nat.lt_or_ge r k with h3 | h3
                · have h4 := hmaxi h3
                  have h5 := ht.2 (k - r - 1) (by omega) (by omega)
                  omega
                · have := ht.1
                  omega)
            (by rw [hacc]; omega)
          rw [hacc] at this
          simpa using this
    · rw [if_neg hlt]
      have heq : acc rd k = len := by omega
      exact ⟨_, rfl, Or.inl ⟨heq, heq, k, by omega, hno⟩⟩



/-! ## The streaming loop -/

theorem effects_cons_step (o : CycleObs) (rest : List CycleObs) :
    effects (streaming_loop (o :: rest)) =
      if o.n ≠ (FRAME_SIZE : Int) then [Event.close_serial]
      else if o.live ≠ 0 then continue_effects o ++ effects (streaming_loop rest)
      else [Event.write_serial "X\n", Event.close_serial] := by
  rw [streaming_loop]
  by_cases h1 : o.n ≠ (FRAME_SIZE : Int)
  · simp [h1, effects, after_loop, isEffect]
  · by_cases h2 : o.live ≠ 0
    · cases hf : o.fopen_ok <;>
        simp [h1, h2, hf, effects, process_and_save, continue_effects, isEffect]
    · simp [h1, h2, effects, after_loop, isEffect]


/-! ## The bitmap header -/

theorem create_bmp_header_bytes (h : Buffer) :
    slice (create_bmp_header h) 0 54 = bmp_header_bytes := by
  rfl

theorem create_bmp_header_byte (h : Buffer) (k : Nat) (hk : k < 54) :
    create_bmp_header h k = bmp_header_bytes.getD k 0 := by
  have h2 := slice_get (create_bmp_header h) 0 54 k _ (create_bmp_header_bytes h) hk
  simpa using h2

theorem slice_halves (m : Buffer) (off : Nat) (a b c d e f : Byte)
    (h : slice m off 6 = [a, b, c, d, e, f]) :
    slice m off 3 = [a, b, c] ∧ slice m (off + 3) 3 = [d, e, f] := by
  rw [slice_six_split] at h
  have h3 : (slice m off 3).length = [a, b, c].length := by simp [slice]
  exact List.append_inj h h3

theorem clampByte_byte (y : Byte) : clampByte (y.val : Int) = y := by
  have hy := y.isLt
  apply Fin.ext
  unfold clampByte
  have h : 0 ≤ (y.val : Int) ∧ (y.val : Int) ≤ 255 := by omega
  simp only [h, and_self, dite_true]
  omega

theorem group_bytes_split (b0 b1 b2 b3 : Byte) :
    group_bytes b0 b1 b2 b3 = pixel_bytes b0 b1 b3 ++ pixel_bytes b2 b1 b3 := rfl

theorem group_bytes_zero : group_bytes 0 0 0 0 = [136, 0, 0, 136, 0, 0] := by decide

/-! ## Colour conversion: the claims -/

/-- C1 (counterexample): on the group `(128, 255, 128, 128)` the code writes
`(85, 128, 255)` for each pixel, while the description that takes `v'` from the second byte
and `u'` from the fourth gives `(38, 255, 128)`. -/
theorem spec_group_bytes_counterexample :
    group_bytes 128 255 128 128 = [85, 128, 255, 85, 128, 255] ∧
    spec_group_bytes 128 255 128 128 = [38, 255, 128, 38, 255, 128] ∧
    group_bytes 128 255 128 128 ≠ spec_group_bytes 128 255 128 128 := by
  decide

/-- C1 (amended): for every group `(b0, b1, b2, b3)` in wire order, with `u' = b1 - 128` and
`v' = b3 - 128`, the function writes for `y = b0` and then for `y = b2` the bytes
`[clamp green, clamp red, clamp blue]`; the red formula uses the chroma of the fourth byte and
the blue formula the chroma of the second byte. Equivalently the output is the described one
with the two chroma bytes exchanged. -/
theorem group_bytes_formulas (b0 b1 b2 b3 : Byte) :
    group_bytes b0 b1 b2 b3 =
      [clampByte (green_formula b0.val ((b1.val : Int) - 128) ((b3.val : Int) - 128)),
       clampByte (red_formula b0.val ((b3.val : Int) - 128)),
       clampByte (blue_formula b0.val ((b1.val : Int) - 128)),
       clampByte (green_formula b2.val ((b1.val : Int) - 128) ((b3.val : Int) - 128)),
       clampByte (red_formula b2.val ((b3.val : Int) - 128)),
       clampByte (blue_formula b2.val ((b1.val : Int) - 128))] ∧
    group_bytes b0 b1 b2 b3 = spec_group_bytes b0 b3 b2 b1 := by
  exact ⟨group_bytes_eq b0 b1 b2 b3, group_bytes_eq b0 b1 b2 b3⟩

/-- C6 (counterexample): on the all-zero group the first byte written for each pixel is 136,
the clamped green value, whereas blue-green-red order would put the clamped blue value 0
first and 136 second. -/
theorem bgr_order_counterexample :
    group_bytes 0 0 0 0 = [136, 0, 0, 136, 0, 0] ∧
    bgr_group_bytes 0 0 0 0 = [0, 136, 0, 0, 136, 0] ∧
    group_bytes 0 0 0 0 ≠ bgr_group_bytes 0 0 0 0 := by
  decide

/-- C6 (amended): the function writes every pixel in green, red, blue order. For every frame
and every pixel `p < WIDTH * HEIGHT` with luma `y = raw[2p]`, the bytes at `3p`, `3p + 1`,
`3p + 2` are the clamped green, red and blue formula values, where `u'` and `v'` are the
centred second and fourth bytes of the pixel's group. -/
theorem pixel_order_green_red_blue (raw out0 : Buffer) (p : Nat) (hp : p < WIDTH * HEIGHT) :
    ∃ st, yvyu_to_rgb_int_math raw out0 = some st ∧
      slice st.rgb_out (3 * p) 3 =
        [clampByte (green_formula (raw (2 * p)).val
            (((raw (4 * (p / 2) + 1)).val : Int) - 128) (((raw (4 * (p / 2) + 3)).val : Int) - 128)),
         clampByte (red_formula (raw (2 * p)).val (((raw (4 * (p / 2) + 3)).val : Int) - 128)),
         clampByte (blue_formula (raw (2 * p)).val (((raw (4 * (p / 2) + 1)).val : Int) - 128))] := by
  obtain ⟨st, hst, hinv, _, _, _⟩ := yvyu_frame raw out0
  refine ⟨st, hst, ?_⟩
  have hp2 : p / 2 < 38400 := by
    simp only [WIDTH, HEIGHT] at hp; omega
  have h := hinv (p / 2) hp2
  rw [group_bytes_eq] at h
  obtain ⟨hA, hB⟩ := slice_halves _ _ _ _ _ _ _ _ h
  rcases Nat.mod_two_eq_zero_or_one p with hm | hm
  · have e1 : 3 * p = 6 * (p / 2) := by omega
    have e2 : 2 * p = 4 * (p / 2) := by omega
    rw [e1, e2]; exact hA
  · have e1 : 3 * p = 6 * (p / 2) + 3 := by omega
    have e2 : 2 * p = 4 * (p / 2) + 2 := by omega
    rw [e1, e2]; exact hB

/-- C6 (witness): pixel 1 of the all-zero frame is written as `(136, 0, 0)`. -/
theorem pixel_order_green_red_blue_witness :
    ∃ st, yvyu_to_rgb_int_math zero_frame zero_frame = some st ∧
      slice st.rgb_out 3 3 = [136, 0, 0] := by
  obtain ⟨st, h1, h2⟩ := pixel_order_green_red_blue zero_frame zero_frame 1 (by decide)
  exact ⟨st, h1, h2.trans (by decide)⟩

/-- C7: the conversion is a group-wise map of the single-pixel function `pixel_bytes` of
(luma, second group byte, fourth group byte). The function returns; for every group
`k < 38400` the bytes `6k..6k+2` are `pixel_bytes raw[4k] raw[4k+1] raw[4k+3]` and the bytes
`6k+3..6k+5` are `pixel_bytes raw[4k+2] raw[4k+1] raw[4k+3]`; exchanging the two lumas of a
group exchanges its two triples; the input offsets loaded are exactly `0..153599` and the
output offsets stored are exactly `0..230399`, each once. -/
theorem frame_groupwise (raw out0 : Buffer) (k : Nat) (hk : k < 38400) :
    ∃ st, yvyu_to_rgb_int_math raw out0 = some st ∧
      slice st.rgb_out (6 * k) 3 = pixel_bytes (raw (4 * k)) (raw (4 * k + 1)) (raw (4 * k + 3)) ∧
      slice st.rgb_out (6 * k + 3) 3
        = pixel_bytes (raw (4 * k + 2)) (raw (4 * k + 1)) (raw (4 * k + 3)) ∧
      (∀ b0 b1 b2 b3 : Byte,
        group_bytes b0 b1 b2 b3 = pixel_bytes b0 b1 b3 ++ pixel_bytes b2 b1 b3 ∧
        (pixel_bytes b0 b1 b3).length = 3 ∧
        group_bytes b2 b1 b0 b3
          = (group_bytes b0 b1 b2 b3).drop 3 ++ (group_bytes b0 b1 b2 b3).take 3) ∧
      st.reads = List.range FRAME_SIZE ∧ FRAME_SIZE = 153600 ∧
      st.writes = List.range RGB_SIZE ∧ RGB_SIZE = 230400 ∧ st.writes.Nodup := by
  obtain ⟨st, hst, hinv, _, hr, hw⟩ := yvyu_frame raw out0
  have h := hinv k hk
  rw [group_bytes_split, slice_six_split] at h
  have h3 : (slice st.rgb_out (6 * k) 3).length
      = (pixel_bytes (raw (4 * k)) (raw (4 * k + 1)) (raw (4 * k + 3))).length := by
    simp [slice, pixel_bytes, group_bytes]
  obtain ⟨hA, hB⟩ := List.append_inj h h3
  refine ⟨st, hst, hA, hB, ?_, hr, rfl, hw, rfl, ?_⟩
  · intro b0 b1 b2 b3
    exact ⟨rfl, rfl, rfl⟩
  · rw [hw]; exact List.nodup_range _

/-- C7 (witness): group 0 of the all-zero frame. -/
theorem frame_groupwise_witness :
    ∃ st, yvyu_to_rgb_int_math zero_frame zero_frame = some st ∧
      slice st.rgb_out 0 3 = [136, 0, 0] ∧ slice st.rgb_out 3 3 = [136, 0, 0] ∧
      st.reads = List.range 153600 ∧ st.writes = List.range 230400 := by
  obtain ⟨st, h1, h2, h3, _, h4, _, h5, _, _⟩ :=
    frame_groupwise zero_frame zero_frame 0 (by decide)
  exact ⟨st, h1, h2.trans (by decide), h3.trans (by decide), h4, h5⟩

/-- C8: for every input group, the six integers handed to `CLAMP` are computed without
32-bit overflow (they equal the formula values in unbounded integer arithmetic and lie in the
`int` range), each byte stored is 0 for a negative pre-clamp value, 255 for one above 255 and
the value itself otherwise, and the cast to `unsigned char` never reduces modulo 256. -/
theorem clamp_saturates (b0 b1 b2 b3 : Byte) :
    group_preclamp b0 b1 b2 b3 = exact_preclamp b0 b1 b2 b3 ∧
    (exact_preclamp b0 b1 b2 b3).all
      (fun x => decide (-2147483648 ≤ x ∧ x ≤ 2147483647)) = true ∧
    (group_bytes b0 b1 b2 b3).map (fun b => (b.val : Int))
      = (group_preclamp b0 b1 b2 b3).map
          (fun x => if x < 0 then 0 else if x > 255 then 255 else x) ∧
    (group_preclamp b0 b1 b2 b3).map (fun x => CLAMP x % 256)
      = (group_preclamp b0 b1 b2 b3).map CLAMP := by
  refine ⟨?_, ?_, ?_, ?_⟩
  · simp only [group_preclamp, exact_preclamp, group_ints_eq]
  · have hA := formula_bounds b0 b1 b3
    have hB := formula_bounds b2 b1 b3
    simp only [exact_preclamp, List.all_cons, List.all_nil, Bool.and_true, Bool.and_eq_true,
      decide_eq_true_eq]
    omega
  · simp only [group_bytes, group_preclamp, List.map_cons, List.map_nil, toUChar_CLAMP,
      clampByte_val, saturate]
  · simp only [List.map_cons, List.map_nil, group_preclamp, CLAMP_mod]

/-- C9 (counterexample): converting the all-zero frame succeeds and stores 136, not 0, at
output offset 0; the all-zero group is written as `(136, 0, 0, 136, 0, 0)`. -/
theorem zero_frame_counterexample :
    group_bytes 0 0 0 0 ≠ [0, 0, 0, 0, 0, 0] ∧
    ∃ st, yvyu_to_rgb_int_math zero_frame zero_frame = some st ∧
      st.rgb_out 0 = 136 ∧ st.rgb_out 0 ≠ 0 := by
  refine ⟨by decide, ?_⟩
  obtain ⟨st, hst, hinv, _, _, _⟩ := yvyu_frame zero_frame zero_frame
  have h := slice_get _ _ _ 0 _ (hinv 0 (by decide)) (by decide)
  have h0 : st.rgb_out 0 = 136 := by
    rw [show (6 * 0 + 0 : Nat) = 0 from rfl] at h
    rw [h]; decide
  exact ⟨st, hst, h0, by rw [h0]; decide⟩

/-- C9 (amended): for the frame of 153600 zero bytes the conversion succeeds and every pixel
is written as `(136, 0, 0)`: of the 230400 output bytes those at offsets divisible by 3 are
136 (the green formula at `u' = v' = -128` gives `0 + 44 + 92`) and all others are 0. -/
theorem zero_frame_output (out0 : Buffer) (m : Nat) (hm : m < 230400) :
    ∃ st, yvyu_to_rgb_int_math zero_frame out0 = some st ∧
      st.rgb_out m = if m % 3 = 0 then 136 else 0 := by
  obtain ⟨st, hst, hinv, _, _, _⟩ := yvyu_frame zero_frame out0
  refine ⟨st, hst, ?_⟩
  have hk : m / 6 < 38400 := by omega
  have hc : m % 6 < 6 := Nat.mod_lt _ (by decide)
  have h := slice_get _ _ _ (m % 6) _ (hinv (m / 6) hk) hc
  rw [show 6 * (m / 6) + m % 6 = m by omega] at h
  rw [h, show zero_frame = fun _ => (0 : Byte) from rfl]
  simp only [group_bytes_zero]
  have h3 : m % 3 = (m % 6) % 3 := by omega
  rw [h3]
  generalize m % 6 = c at hc
  interval_cases c <;> rfl

/-- C9 (witness): output offsets 3 and 4 of the converted all-zero frame. -/
theorem zero_frame_output_witness :
    (∃ st, yvyu_to_rgb_int_math zero_frame zero_frame = some st ∧ st.rgb_out 3 = 136) ∧
    (∃ st, yvyu_to_rgb_int_math zero_frame zero_frame = some st ∧ st.rgb_out 4 = 0) := by
  constructor
  · obtain ⟨st, h1, h2⟩ := zero_frame_output zero_frame 3 (by decide)
    exact ⟨st, h1, h2⟩
  · obtain ⟨st, h1, h2⟩ := zero_frame_output zero_frame 4 (by decide)
    exact ⟨st, h1, h2⟩

/-- C10: neutral chroma is the identity on luma. For all bytes `y0`, `y1` the group
`(y0, 128, y1, 128)` is converted to `(y0, y0, y0, y1, y1, y1)`; in particular
`(128, 128, 200, 128)` yields `(128, 128, 128, 200, 200, 200)`. -/
theorem neutral_chroma (y0 y1 : Byte) :
    group_bytes y0 128 y1 128 = [y0, y0, y0, y1, y1, y1] ∧
    group_bytes 128 128 200 128 = [128, 128, 128, 200, 200, 200] := by
  refine ⟨?_, by decide⟩
  rw [group_bytes_eq]
  have h128 : ((128 : Byte).val : Int) - 128 = 0 := by decide
  simp only [h128, green_formula, red_formula, blue_formula, asr_ten]
  norm_num [clampByte_byte]

/-! ## The bitmap header: the claim -/

/-- C5: `create_bmp_header` fills the 54 header bytes with exactly: `'B'`, `'M'`; file size
230454 = 54 + 320 * 240 * 3 at offset 2; data offset 54 at 10; header size 40 at 14; width 320
at 18; height -240 (two's complement) at 22; planes 1 at 26; bit count 24 at 28; compression 0
at 30; image size 230400 at 34; resolution 2835 at 38 and 42; every other byte 0. The header
followed by the `WIDTH * HEIGHT * 3` pixel bytes is a sequence of 230454 bytes, equal to its
own file-size field, beginning with the signature. -/
theorem create_bmp_header_spec (header rgb_buf : Buffer) :
    slice (create_bmp_header header) 0 54 = bmp_header_bytes ∧
    bmp_header_bytes.length = 54 ∧
    create_bmp_header header 0 = toUChar (Char.toNat 'B') ∧
    create_bmp_header header 1 = toUChar (Char.toNat 'M') ∧
    load_int (create_bmp_header header) 2 = 230454 ∧
    (230454 : Int) = 54 + 320 * 240 * 3 ∧
    slice (create_bmp_header header) 6 4 = [0, 0, 0, 0] ∧
    load_int (create_bmp_header header) 10 = 54 ∧
    load_int (create_bmp_header header) 14 = 40 ∧
    load_int (create_bmp_header header) 18 = 320 ∧
    load_int (create_bmp_header header) 22 = -240 ∧
    load_short (create_bmp_header header) 26 = 1 ∧
    load_short (create_bmp_header header) 28 = 24 ∧
    load_int (create_bmp_header header) 30 = 0 ∧
    load_int (create_bmp_header header) 34 = 230400 ∧
    load_int (create_bmp_header header) 38 = 2835 ∧
    load_int (create_bmp_header header) 42 = 2835 ∧
    slice (create_bmp_header header) 46 8 = [0, 0, 0, 0, 0, 0, 0, 0] ∧
    (bmp_file (create_bmp_header header) rgb_buf).length = 230454 ∧
    ((bmp_file (create_bmp_header header) rgb_buf).length : Int)
      = load_int (create_bmp_header header) 2 ∧
    (bmp_file (create_bmp_header header) rgb_buf).take 2
      = [toUChar (Char.toNat 'B'), toUChar (Char.toNat 'M')] ∧
    (bmp_file (create_bmp_header header) rgb_buf).drop 54 = slice rgb_buf 0 (WIDTH * HEIGHT * 3) := by
  have hb := create_bmp_header_byte header
  have hlen : (bmp_file (create_bmp_header header) rgb_buf).length = 230454 := by
    simp [bmp_file, fwrite, slice, WIDTH, HEIGHT]
  have hsize : load_int (create_bmp_header header) 2 = 230454 := by
    simp only [load_int, hb _ (show 2 < 54 by decide), hb _ (show 2 + 1 < 54 by decide),
      hb _ (show 2 + 2 < 54 by decide), hb _ (show 2 + 3 < 54 by decide)]
    decide
  refine ⟨create_bmp_header_bytes header, rfl, rfl, rfl, hsize, by norm_num, rfl, ?_, ?_, ?_, ?_,
    ?_, ?_, ?_, ?_, ?_, ?_, rfl, hlen, ?_, ?_, ?_⟩
  · simp only [load_int, hb _ (show 10 < 54 by decide), hb _ (show 10 + 1 < 54 by decide),
      hb _ (show 10 + 2 < 54 by decide), hb _ (show 10 + 3 < 54 by decide)]
    decide
  · simp only [load_int, hb _ (show 14 < 54 by decide), hb _ (show 14 + 1 < 54 by decide),
      hb _ (show 14 + 2 < 54 by decide), hb _ (show 14 + 3 < 54 by decide)]
    decide
  · simp only [load_int, hb _ (show 18 < 54 by decide), hb _ (show 18 + 1 < 54 by decide),
      hb _ (show 18 + 2 < 54 by decide), hb _ (show 18 + 3 < 54 by decide)]
    decide
  · simp only [load_int, hb _ (show 22 < 54 by decide), hb _ (show 22 + 1 < 54 by decide),
      hb _ (show 22 + 2 < 54 by decide), hb _ (show 22 + 3 < 54 by decide)]
    decide
  · simp only [load_short, hb _ (show 26 < 54 by decide), hb _ (show 26 + 1 < 54 by decide)]
    decide
  · simp only [load_short, hb _ (show 28 < 54 by decide), hb _ (show 28 + 1 < 54 by decide)]
    decide
  · simp only [load_int, hb _ (show 30 < 54 by decide), hb _ (show 30 + 1 < 54 by decide),
      hb _ (show 30 + 2 < 54 by decide), hb _ (show 30 + 3 < 54 by decide)]
    decide
  · simp only [load_int, hb _ (show 34 < 54 by decide), hb _ (show 34 + 1 < 54 by decide),
      hb _ (show 34 + 2 < 54 by decide), hb _ (show 34 + 3 < 54 by decide)]
    decide
  · simp only [load_int, hb _ (show 38 < 54 by decide), hb _ (show 38 + 1 < 54 by decide),
      hb _ (show 38 + 2 < 54 by decide), hb _ (show 38 + 3 < 54 by decide)]
    decide
  · simp only [load_int, hb _ (show 42 < 54 by decide), hb _ (show 42 + 1 < 54 by decide),
      hb _ (show 42 + 2 < 54 by decide), hb _ (show 42 + 3 < 54 by decide)]
    decide
  · rw [hlen, hsize]; rfl
  · simp only [bmp_file, fwrite, create_bmp_header_bytes]
    rfl
  · simp only [bmp_file, fwrite, create_bmp_header_bytes]
    exact List.drop_left' rfl

/-! ## `read_exact`: the claims -/

/-- C3: for every `0 ≤ len` (an `int`) and every sequence of read results in which each
positive result is at most the number of bytes still requested, `read_exact` returns (any
iteration bound of at least `501 * (len + 1) + 1` suffices); it returns `len` if and only if
the accumulated count reaches `len` before a run of 501 consecutive non-positive results
occurs, and otherwise returns -1. The number of bytes stored lies between 0 and `len`, so
neither the return value nor the stored count exceeds the request. -/
theorem read_exact_spec (rd : Nat → Int) (len : Int) (h0 : 0 ≤ len) (hmax : len < 2147483648)
    (hwf : ReadsWithinRequest rd len) (fuel : Nat) (hf : 501 * (len.toNat + 1) + 1 ≤ fuel) :
    ∃ res, read_exact rd len fuel = some res ∧
      (res.ret = len ↔ CompletesBeforeTimeout rd len) ∧
      (¬ CompletesBeforeTimeout rd len → res.ret = -1) ∧
      0 ≤ res.total ∧ res.total ≤ len ∧ res.ret ≤ len ∧ (res.ret = len → res.total = len) := by
  have h := read_exact_loop_spec rd len hmax hwf fuel 0 0 (by simpa [acc] using h0) (by omega)
    (by omega) (by intro j h1 h2; omega) (by intro h; omega)
    (by intro m hm ht; have := ht.1; omega) (by simp only [acc]; omega)
  obtain ⟨res, hres, hcase⟩ := h
  refine ⟨res, hres, ?_⟩
  rcases hcase with ⟨h1, h2, h3⟩ | ⟨h1, k, hk, _, h2, h3⟩
  · exact ⟨⟨fun _ => h3, fun _ => h1⟩, fun hn => absurd h3 hn, by omega, by omega, by omega,
      fun _ => h2⟩
  · have hn := not_completes_of_timeout rd len k hk h3
    have := acc_nonneg rd k
    exact ⟨⟨fun h => by omega, fun h => absurd h hn⟩, fun _ => h1, by omega, by omega, by omega,
      fun h => by omega⟩

/-- C3 (witness): a link that delivers one byte per read, asked for two bytes. -/
theorem read_exact_spec_witness :
    ∃ res, read_exact (fun _ => 1) 2 1504 = some res ∧
      (res.ret = 2 ↔ CompletesBeforeTimeout (fun _ => 1) 2) ∧
      (¬ CompletesBeforeTimeout (fun _ => 1) 2 → res.ret = -1) ∧
      0 ≤ res.total ∧ res.total ≤ 2 ∧ res.ret ≤ 2 ∧ (res.ret = 2 → res.total = 2) :=
  read_exact_spec (fun _ => 1) 2 (by decide) (by decide)
    (by intro k h1 _ _; show (1 : Int) ≤ 2 - acc (fun _ => 1) k; omega) 1504 (by decide)

set_option maxRecDepth 20000 in
/-- C4 (counterexample): asked for 4 bytes on a link that delivers 2 bytes and then nothing,
`read_exact` exhausts its retry budget with 2 bytes accumulated and returns -1, not 2. -/
theorem timeout_returns_minus_one :
    read_exact two_then_silent 4 2006 = some { ret := -1, total := 2 } ∧
    (-1 : Int) ≠ 2 := by
  decide

/-- C4 (amended): when `read_exact` exhausts its retry budget (the first run of 501 consecutive
non-positive results ends at read `k`) after having accumulated `t < len` bytes, its return
value is -1 while `t` bytes have been stored; the shortfall is not returned. -/
theorem read_exact_timeout (rd : Nat → Int) (len : Int) (h0 : 0 ≤ len) (hmax : len < 2147483648)
    (hwf : ReadsWithinRequest rd len) (k : Nat) (t : Int) (ht : TimeoutAt rd k)
    (hmin : ∀ m, m < k → ¬ TimeoutAt rd m) (hacc : acc rd k = t) (hlt : t < len)
    (fuel : Nat) (hf : 501 * (len.toNat + 1) + 1 ≤ fuel) :
    read_exact rd len fuel = some { ret := -1, total := t } := by
  have h := read_exact_loop_spec rd len hmax hwf fuel 0 0 (by simpa [acc] using h0) (by omega)
    (by omega) (by intro j h1 h2; omega) (by intro h; omega)
    (by intro m hm ht; have := ht.1; omega) (by simp only [acc]; omega)
  obtain ⟨res, hres, hcase⟩ := h
  rcases hcase with ⟨_, _, h3⟩ | ⟨h1, k2, hk2, hmin2, h2, _⟩
  · exact absurd h3 (not_completes_of_timeout rd len k ht (by omega))
  · have hk : k2 = k := by
      rcases Nat.lt_trichotomy k2 k with h | h | h
      · exact absurd hk2 (hmin k2 h)
      · exact h
      · exact absurd ht (hmin2 k h)
    subst hk
    rw [read_exact, ← hacc, ← h2, ← h1]
    exact hres

set_option maxRecDepth 20000 in
/-- C4 (witness): a silent link asked for one byte times out at read 501 with nothing
accumulated, and -1 is returned. -/
theorem read_exact_timeout_witness :
    read_exact (fun _ => 0) 1 1003 = some { ret := -1, total := 0 } :=
  read_exact_timeout (fun _ => 0) 1 (by decide) (by decide)
    (by intro k _ _ h; exact absurd h (Int.lt_irrefl 0)) 501 0
    ⟨by decide, fun _ _ _ => Int.le_refl 0⟩
    (by intro m hm ht; have := ht.1; omega) (by decide) (by decide) 1003 (by decide)

/-! ## The streaming loop: the claim -/

/-- C2: in the streaming loop, after any number of cycles that received a full frame with the
flag enabled, the next cycle behaves as follows. After a full frame exactly one token is
written, and it is the first effect of the cycle: `"A\n"` when the flag is observed enabled,
followed by the conversion and the file write and then the next cycle; `"X\n"` when the flag
is observed disabled, followed only by closing the transport. After a read result different
from `FRAME_SIZE` the only effect is closing the transport. -/
theorem streaming_order (pre : List CycleObs) (o : CycleObs) (rest : List CycleObs)
    (hpre : ∀ c, c ∈ pre → c.n = (FRAME_SIZE : Int) ∧ c.live ≠ 0) :
    effects (streaming_loop (pre ++ o :: rest)) =
      (pre.map continue_effects).flatten ++
        (if o.n ≠ (FRAME_SIZE : Int) then [Event.close_serial]
         else if o.live ≠ 0 then continue_effects o ++ effects (streaming_loop rest)
         else [Event.write_serial "X\n", Event.close_serial]) := by
  induction pre with
  | nil => simpa using effects_cons_step o rest
  | cons c pre ih =>
    have hc := hpre c (by simp)
    have ih2 := ih (fun c2 h2 => hpre c2 (by simp [h2]))
    rw [List.cons_append, effects_cons_step, if_neg (by simp [hc.1]), if_pos hc.2, ih2]
    simp

/-- C2 (witness): one live cycle followed by a stop request, and one live cycle followed by
a short read of 100 bytes. -/
theorem streaming_order_witness :
    effects (streaming_loop ([live_cycle] ++ stop_cycle :: [])) =
      [Event.write_serial "A\n", Event.convert, Event.fopen_out, Event.fwrite_header,
        Event.fwrite_pixels, Event.fclose_out, Event.write_serial "X\n", Event.close_serial] ∧
    effects (streaming_loop ([live_cycle] ++ { n := 100, live := 1, fopen_ok := true } :: [])) =
      [Event.write_serial "A\n", Event.convert, Event.fopen_out, Event.fwrite_header,
        Event.fwrite_pixels, Event.fclose_out, Event.close_serial] := by
  constructor
  · exact (streaming_order [live_cycle] stop_cycle []
      (by intro c hc; rw [List.mem_singleton] at hc; subst hc; decide)).trans (by decide)
  · exact (streaming_order [live_cycle] { n := 100, live := 1, fopen_ok := true } []
      (by intro c hc; rw [List.mem_singleton] at hc; subst hc; decide)).trans (by decide)

end LivePreview
